import Mathlib

/-!
Verification development for the note-manager board application.

The definitions below are a shallow embedding of the TypeScript source:

* `src/src/types/database.ts` — the `Note` record and its enumerations;
* `src/src/hooks/useNotes.ts` — the note mutation operations
  (`bringToFront`, `updateStatus`, `toggleReplied`, field updates);
* the `Board` component — `filteredNotes`, `handleOverview`
  (bulk grid arrange) and `handleDragEnd` (snap-to-grid drag resolution
  with bounded collision probing);
* `src/src/components/Calendar.tsx` — month-grid deadline bucketing;
* `src/src/components/DeadlineCounters.tsx` — deadline horizon counters;
* the `WeekOverview` component — the next-5-workdays walk.

Modelling conventions:

* JavaScript numbers that hold canvas coordinates, stacking indices,
  pointer deltas and viewport widths are modelled as `Int` (the program
  only ever combines them by `+`, `*`, `Math.round`, `Math.max`,
  `Math.abs` and comparisons; all claim scenarios are integral).
* A deadline instant is modelled as minutes since the Unix epoch
  (`Int`).  The store serialises an instant as a UTC ISO-8601 string
  `YYYY-MM-DDTHH:MM:SSZ`, so the code's `deadline.split('T')[0]` is the
  instant's UTC calendar date, and `new Date(deadline)` recovers the
  instant; both are modelled directly on the instant.
* The viewer's time zone is a fixed offset `tz` in minutes east of UTC
  (the spec's scenarios use fixed offsets such as UTC+2, `tz = 120`);
  `getFullYear/getMonth/getDate` of a JS `Date` then read the civil
  components of `(t + tz)` floor-divided into days.
-/

/-- `NoteStatus` from `types/database.ts`. -/
inductive NoteStatus where
  | nieuw
  | in_behandeling
  | afgerond
  | archief
deriving DecidableEq, Repr

/-- `NoteType` from `types/database.ts`. -/
inductive NoteType where
  | offerte
  | onderzoek
  | overige
deriving DecidableEq, Repr

/-- `DeadlineType` from `types/database.ts`. -/
inductive DeadlineType where
  | must
  | ca
deriving DecidableEq, Repr

/-- The `Note` row from `types/database.ts`.  `deadline` is the stored
instant in minutes since the epoch (see the module docstring); fields the
layout and deadline logic never reads are kept for fidelity. -/
structure Note where
  id : String
  user_id : String
  customer_name : String
  contact_person : String
  subject : String
  note_type : NoteType
  note_type_other : Option String
  status : NoteStatus
  position_x : Int
  position_y : Int
  z_index : Int
  remarks : Option String
  replied : Bool
  deadline : Option Int
  deadline_type : Option DeadlineType
  compleet : Bool
  email_content : Option String
  email_subject : Option String
  email_from : Option String
  email_received_at : Option String
deriving DecidableEq, Repr

/-! ### Civil calendar arithmetic

`civilFromDays`/`daysFromCivil` convert between a day count since
1970-01-01 and a proleptic-Gregorian `(year, month, day)` triple — the
arithmetic JavaScript `Date` performs internally for `getFullYear`,
`getMonth`, `getDate` and `setDate` rollover. -/

/-- Civil date (year, 1-based month, day) of a day number counted from
1970-01-01. -/
def civilFromDays (z : Int) : Int × Int × Int :=
  let z := z + 719468
  let era := Int.fdiv z 146097
  let doe := z - era * 146097
  let yoe := Int.fdiv (doe - Int.fdiv doe 1460 + Int.fdiv doe 36524 - Int.fdiv doe 146096) 365
  let y := yoe + era * 400
  let doy := doe - (365 * yoe + Int.fdiv yoe 4 - Int.fdiv yoe 100)
  let mp := Int.fdiv (5 * doy + 2) 153
  let d := doy - Int.fdiv (153 * mp + 2) 5 + 1
  let m := if mp < 10 then mp + 3 else mp - 9
  (if m ≤ 2 then y + 1 else y, m, d)

/-- Day number (from 1970-01-01) of a civil date. -/
def daysFromCivil (y m d : Int) : Int :=
  let y := if m ≤ 2 then y - 1 else y
  let era := Int.fdiv y 400
  let yoe := y - era * 400
  let mp := if 2 < m then m - 3 else m + 9
  let doy := Int.fdiv (153 * mp + 2) 5 + d - 1
  let doe := yoe * 365 + Int.fdiv yoe 4 - Int.fdiv yoe 100 + doy
  era * 146097 + doe - 719468

/-- Minutes-since-epoch instant of a UTC civil date and time of day. -/
def minutesOfUtc (y m d hh mm : Int) : Int :=
  daysFromCivil y m d * 1440 + hh * 60 + mm

/-- `String(n).padStart(2, '0')` for a (nonnegative) numeric component. -/
def pad2 (n : Int) : String :=
  (if n < 10 then "0" else "") ++ toString n

/-- The `YYYY-MM-DD` key of a civil triple — the string layout shared by
`formatDateLocal` (DeadlineCounters, WeekOverview) and `getDateKey`
(Calendar). -/
def formatYmd : Int × Int × Int → String
  | (y, m, d) => toString y ++ "-" ++ pad2 m ++ "-" ++ pad2 d

/-- `YYYY-MM-DD` key of a day number. -/
def dayKeyOfDays (z : Int) : String :=
  formatYmd (civilFromDays z)

/-- The UTC calendar-date key of an instant: what
`note.deadline.split('T')[0]` yields on the stored UTC ISO string
(`Calendar.tsx` line 22, and the Board's `dateFilter` comparison). -/
def utcDateKey (t : Int) : String :=
  dayKeyOfDays (Int.fdiv t 1440)

/-- The local calendar-date key of an instant in fixed-offset zone `tz`
(minutes east of UTC): the value of `formatDateLocal(new Date(t))` in
`DeadlineCounters.tsx` lines 13-18. -/
def localDateKey (tz t : Int) : String :=
  dayKeyOfDays (Int.fdiv (t + tz) 1440)

/-! ### Layout engine (Board component) -/

/-- `NOTE_WIDTH` constant of the Board component. -/
def NOTE_WIDTH : Int := 380

/-- `NOTE_HEIGHT` constant of the Board component. -/
def NOTE_HEIGHT : Int := 280

/-- `GRID_GAP` constant of the Board component. -/
def GRID_GAP : Int := 15

/-- `GRID_SIZE_X = NOTE_WIDTH + GRID_GAP` from `handleDragEnd`. -/
def GRID_SIZE_X : Int := NOTE_WIDTH + GRID_GAP

/-- `GRID_SIZE_Y = NOTE_HEIGHT + GRID_GAP` from `handleDragEnd`. -/
def GRID_SIZE_Y : Int := NOTE_HEIGHT + GRID_GAP

/-- `Math.max(1, Math.floor((innerWidth - 40) / (NOTE_WIDTH + GRID_GAP)))`
— notes per row in `handleOverview` (the subtraction of 40 is the code's
`boardWidth = window.innerWidth - 40`).  Returned as `Nat`: the JS value
is at least 1. -/
def notesPerRow (innerWidth : Int) : Nat :=
  max 1 (Int.toNat (Int.fdiv (innerWidth - 40) (NOTE_WIDTH + GRID_GAP)))

/-- `handleOverview` (Board lines 139-157): positions the already
filtered-and-sorted notes on a responsive grid, producing one
`(id, x, y)` update per note in sequence order. -/
def handleOverview (innerWidth : Int) (notes : List Note) : List (String × Int × Int) :=
  let perRow := notesPerRow innerWidth
  notes.enum.map fun p =>
    let row := p.1 / perRow
    let col := p.1 % perRow
    (p.2.id, (col : Int) * (NOTE_WIDTH + GRID_GAP) + 20, (row : Int) * (NOTE_HEIGHT + GRID_GAP) + 20)

/-- `Math.round(a / b)` for an integer `a` and positive integer `b`:
JavaScript rounds half toward `+∞`, i.e. `⌊a/b + 1/2⌋`. -/
def jsRoundDiv (a b : Int) : Int :=
  Int.fdiv (2 * a + b) (2 * b)

/-- One snapped axis of `handleDragEnd` (lines 197-198):
`Math.max(0, Math.round(raw / grid) * grid + 20)`. -/
def snapCoord (raw grid : Int) : Int :=
  max 0 (jsRoundDiv raw grid * grid + 20)

/-- The collision probe of `handleDragEnd` (lines 207-210): some other
note is within `GRID_SIZE_X - 10` horizontally and `GRID_SIZE_Y - 10`
vertically of the candidate cell. -/
def probeOccupied (others : List Note) (x y : Int) : Bool :=
  others.any fun other =>
    decide (|other.position_x - x| < GRID_SIZE_X - 10) &&
    decide (|other.position_y - y| < GRID_SIZE_Y - 10)

/-- The candidate advance of `handleDragEnd` (lines 213-219): one grid
cell to the right, wrapping to `x = 20` on the next row when the new
right edge would pass the usable board width. -/
def advanceCell (innerWidth x y : Int) : Int × Int :=
  if x + GRID_SIZE_X > (innerWidth - 40) - NOTE_WIDTH then (20, y + GRID_SIZE_Y)
  else (x + GRID_SIZE_X, y)

/-- Result of the drag resolution: final coordinates, the final value of
the `positionOccupied` flag, and the final value of `attempts`. -/
structure DragResult where
  x : Int
  y : Int
  occupied : Bool
  attempts : Nat
deriving DecidableEq, Repr

/-- The bounded probe-advance loop of `handleDragEnd` (lines 206-222),
with the remaining attempt budget as fuel.  Each iteration performs one
probe and increments `attempts`; on a collision the candidate advances.
Exhausted fuel leaves `occupied = true`, mirroring the loop exiting on
`attempts < maxAttempts` failing. -/
def dragLoop (others : List Note) (innerWidth : Int) :
    Nat → Int → Int → Nat → DragResult
  | 0, x, y, att => ⟨x, y, true, att⟩
  | fuel + 1, x, y, att =>
    if probeOccupied others x y then
      let c := advanceCell innerWidth x y
      dragLoop others innerWidth fuel c.1 c.2 (att + 1)
    else ⟨x, y, false, att + 1⟩

/-- `maxAttempts` from `handleDragEnd`. -/
def maxAttempts : Nat := 50

/-- The snapped x candidate of `handleDragEnd` line 197. -/
def snappedX (note : Note) (dx : Int) : Int :=
  snapCoord (note.position_x + dx) GRID_SIZE_X

/-- The snapped y candidate of `handleDragEnd` line 198. -/
def snappedY (note : Note) (dy : Int) : Int :=
  snapCoord (note.position_y + dy) GRID_SIZE_Y

/-- Full drag resolution of `handleDragEnd`: snap the dragged note's
position plus the pointer delta to the grid, clamp to nonnegative, then
run the collision probe-advance loop. -/
def resolveDrag (innerWidth : Int) (note : Note) (dx dy : Int)
    (others : List Note) : DragResult :=
  dragLoop others innerWidth maxAttempts (snappedX note dx) (snappedY note dy) 0

/-- Board-level `handleDragEnd`: look up the dragged note by id among
all notes (not just the visible ones), resolve, and emit the position
update for the dragged note only. -/
def handleDragEnd (innerWidth : Int) (notes : List Note) (activeId : String)
    (dx dy : Int) : Option (Int × Int) :=
  match notes.find? (fun n => n.id == activeId) with
  | none => none
  | some note =>
    let others := notes.filter fun n => ¬(n.id == note.id)
    let r := resolveDrag innerWidth note dx dy others
    some (r.x, r.y)

/-! ### Deadline classifier -/

/-- The local day number of "now": `new Date()` followed by
`setHours(0,0,0,0)` zeroes the local time of day, so the remaining
information is the local calendar day. -/
def codeTodayLocalDay (tz now : Int) : Int :=
  Int.fdiv (now + tz) 1440

/-- `getDateString` of `DeadlineCounters.tsx`: local-midnight today plus
`d` days via `setDate` rollover (local calendar arithmetic), formatted
with `formatDateLocal`. -/
def getDateString (tz now d : Int) : String :=
  dayKeyOfDays (codeTodayLocalDay tz now + d)

/-- `countByDays` of `DeadlineCounters.tsx` lines 26-35: count the notes
whose deadline, formatted in the local time zone, equals the target date
string; notes without a deadline are skipped. -/
def countByDays (tz now : Int) (notes : List Note) (d : Int) : Nat :=
  (notes.filter fun n =>
    match n.deadline with
    | none => false
    | some t => localDateKey tz t == getDateString tz now d).length

/-- The spec's reading of `CountByHorizon`, written from its words:
`today` is the local calendar date with time zeroed (here the
local-midnight instant), the target is `today + d` days of local
calendar arithmetic on instants, and notes are counted by
`LocalDateKey` equality; no-deadline notes are excluded. -/
def localMidnightInstant (tz now : Int) : Int :=
  Int.fdiv (now + tz) 1440 * 1440 - tz

/-- Spec-side `CountByHorizon` (compared against `countByDays`). -/
def countByHorizonSpec (tz now : Int) (notes : List Note) (d : Int) : Nat :=
  (notes.filter fun n =>
    match n.deadline with
    | none => false
    | some t =>
      localDateKey tz t == localDateKey tz (localMidnightInstant tz now + d * 1440)).length

/-! ### Calendar month grid (`Calendar.tsx`) -/

/-- `getDateKey` of `Calendar.tsx` lines 60-66: the cell key built from
the displayed year, 0-based month and day, zero-padded, with no
timezone conversion. -/
def getDateKey (year month0 day : Int) : String :=
  toString year ++ "-" ++ pad2 (month0 + 1) ++ "-" ++ pad2 day

/-- The per-key bucket of `notesByDate` (`Calendar.tsx` lines 18-29):
notes keyed by `deadline.split('T')[0]`, i.e. by the stored instant's
UTC calendar date. -/
def notesOnDate (notes : List Note) (key : String) : List Note :=
  notes.filter fun n =>
    match n.deadline with
    | none => false
    | some t => utcDateKey t == key

/-- The aggregated flags `getDateInfo` returns for a day cell
(`Calendar.tsx` lines 68-75). -/
structure DateInfo where
  hasMust : Bool
  hasCa : Bool
  hasOther : Bool
  count : Nat
deriving DecidableEq, Repr

/-- `getDateInfo` of `Calendar.tsx`: deadline-type flags over the notes
bucketed at the cell's key. -/
def getDateInfo (notes : List Note) (year month0 day : Int) : DateInfo :=
  let ns := notesOnDate notes (getDateKey year month0 day)
  ⟨ns.any fun n => n.deadline_type == some .must,
   ns.any fun n => n.deadline_type == some .ca,
   ns.any fun n => n.deadline_type == none,
   ns.length⟩

/-! ### Week overview workday walk -/

/-- JavaScript `getDay` of a local day number: day 0 (1970-01-01) was a
Thursday, so `getDay = (z + 4) mod 7` with `0 = Sunday`. -/
def dayOfWeek (z : Int) : Int :=
  (z + 4) % 7

/-- The weekend test of `getWorkdays`: `dayOfWeek` 0 (Sunday) or 6
(Saturday). -/
def isWeekend (z : Int) : Bool :=
  dayOfWeek z == 0 || dayOfWeek z == 6

/-- The `while (workdays.length < 5)` walk of `getWorkdays`
(WeekOverview lines 22-36), with an explicit fuel bound on the number of
daily iterations; each iteration inspects one calendar day, collects it
when it is not a weekend day, and advances one day. -/
def collectWorkdays : Nat → Int → List Int → List Int
  | 0, _, acc => acc.reverse
  | fuel + 1, cur, acc =>
    if acc.length < 5 then
      if isWeekend cur then collectWorkdays fuel (cur + 1) acc
      else collectWorkdays fuel (cur + 1) (cur :: acc)
    else acc.reverse

/-- `getWorkdays` starting at local day `start`, run with the 7-iteration
budget that the walk provably never exceeds. -/
def getWorkdays (start : Int) : List Int :=
  collectWorkdays 7 start []

/-! ### Board filters (`filteredNotes`, Board lines 119-132)

The final locale-aware sort by customer name only reorders the visible
notes; visibility (membership) is decided by the three filters below. -/

/-- Active filter state of the Board; `none` is the code's `'all'` /
unset value. -/
structure FilterState where
  statusFilter : Option NoteStatus
  letterFilter : Option String
  companyFilter : Option String
  dateFilter : Option String

/-- Whether `pat` occurs at the head of `cs`. -/
def leadMatch : List Char → List Char → Bool
  | [], _ => true
  | _ :: _, [] => false
  | p :: ps, c :: cs => p == c && leadMatch ps cs

/-- Whether `pat` occurs anywhere in the character list. -/
def hasSub (pat : List Char) : List Char → Bool
  | [] => pat.isEmpty
  | c :: rest => leadMatch pat (c :: rest) || hasSub pat rest

/-- `a.includes(b)` on strings. -/
def containsSub (s sub : String) : Bool :=
  hasSub sub.toList s.toList

/-- First filter: `statusFilter === 'all' || n.status === statusFilter`. -/
def matchesStatus (f : FilterState) (n : Note) : Bool :=
  match f.statusFilter with
  | none => true
  | some s => n.status == s

/-- Second filter: company substring match when a company filter is
active, otherwise the letter filter on the uppercased first letters. -/
def matchesLetterCompany (f : FilterState) (n : Note) : Bool :=
  match f.companyFilter with
  | some c => containsSub n.customer_name.toLower c.toLower
  | none =>
    match f.letterFilter with
    | none => true
    | some l => n.customer_name.toUpper.startsWith l

/-- Third filter: `n.deadline?.split('T')[0] === dateFilter` (a note
without a deadline never matches an active date filter). -/
def matchesDate (f : FilterState) (n : Note) : Bool :=
  match f.dateFilter with
  | none => true
  | some dkey =>
    match n.deadline with
    | none => false
    | some t => utcDateKey t == dkey

/-- The visible notes: `filteredNotes` of the Board minus its final
order-only sort. -/
def visibleNotes (f : FilterState) (notes : List Note) : List Note :=
  ((notes.filter (matchesStatus f)).filter (matchesLetterCompany f)).filter (matchesDate f)

/-! ### Note mutation operations (`useNotes.ts` and Board handlers) -/

/-- `updateNote` specialised to a patch `f` on the note with the given
id (the store applies the patch and returns the updated row). -/
def mapNote (notes : List Note) (id : String) (f : Note → Note) : List Note :=
  notes.map fun n => if n.id == id then f n else n

/-- `updateStatus` (useNotes lines 113-115). -/
def updateStatus (notes : List Note) (id : String) (s : NoteStatus) : List Note :=
  mapNote notes id fun n => { n with status := s }

/-- `toggleReplied` (useNotes lines 117-119). -/
def toggleReplied (notes : List Note) (id : String) (b : Bool) : List Note :=
  mapNote notes id fun n => { n with replied := b }

/-- `handleToggleCompleet` (Board): flips the `compleet` flag. -/
def toggleCompleet (notes : List Note) (id : String) : List Note :=
  mapNote notes id fun n => { n with compleet := !n.compleet }

/-- `handleUpdateDeadline` (Board). -/
def updateDeadline (notes : List Note) (id : String) (d : Option Int) : List Note :=
  mapNote notes id fun n => { n with deadline := d }

/-- `handleUpdateDeadlineType` (Board). -/
def updateDeadlineType (notes : List Note) (id : String) (dt : Option DeadlineType) : List Note :=
  mapNote notes id fun n => { n with deadline_type := dt }

/-- `handleUpdateRemarks` (Board). -/
def updateRemarks (notes : List Note) (id : String) (r : Option String) : List Note :=
  mapNote notes id fun n => { n with remarks := r }

/-- The free-text fields `handleUpdateField` can write. -/
inductive TextField where
  | customerName
  | contactPerson
  | subjectField
  | remarksField
deriving DecidableEq, Repr

/-- Apply one free-text field write. -/
def setTextField (fld : TextField) (v : String) (n : Note) : Note :=
  match fld with
  | .customerName => { n with customer_name := v }
  | .contactPerson => { n with contact_person := v }
  | .subjectField => { n with subject := v }
  | .remarksField => { n with remarks := some v }

/-- `handleUpdateField` (Board): a free-text field edit through
`updateNote`. -/
def updateField (notes : List Note) (id : String) (fld : TextField) (v : String) : List Note :=
  mapNote notes id (setTextField fld v)

/-- `statusOrder` of `handleCycleStatus`. -/
def statusOrder : List NoteStatus :=
  [.nieuw, .in_behandeling, .afgerond, .archief]

/-- `typeOrder` of `handleCycleType`. -/
def typeOrder : List NoteType :=
  [.offerte, .onderzoek, .overige]

/-- `handleCycleStatus` (Board lines 306-311). -/
def cycleStatus (notes : List Note) (id : String) (current : NoteStatus) : List Note :=
  let next := statusOrder.getD ((statusOrder.indexOf current + 1) % statusOrder.length) .nieuw
  updateStatus notes id next

/-- `handleCycleType` (Board lines 313-318). -/
def cycleType (notes : List Note) (id : String) (current : NoteType) : List Note :=
  let next := typeOrder.getD ((typeOrder.indexOf current + 1) % typeOrder.length) .offerte
  mapNote notes id fun n => { n with note_type := next }

/-- `Math.max(...notes.map(n => n.z_index))` — defined (`some`) exactly
on non-empty lists. -/
def maxZ : List Note → Option Int
  | [] => none
  | n :: rest => some (rest.foldl (fun a x => max a x.z_index) n.z_index)

/-- `bringToFront` (useNotes lines 108-111): assign the note the current
maximum `z_index` plus one. -/
def bringToFront (notes : List Note) (id : String) : List Note :=
  match maxZ notes with
  | none => notes
  | some m => mapNote notes id fun n => { n with z_index := m + 1 }

/-! ### Concrete fixtures used by witnesses and counterexamples -/

/-- A note with neutral field values, at the board origin. -/
def sampleNote : Note :=
  { id := "a", user_id := "u", customer_name := "Acme", contact_person := "p",
    subject := "s", note_type := .offerte, note_type_other := none,
    status := .nieuw, position_x := 0, position_y := 0, z_index := 0,
    remarks := none, replied := false, deadline := none, deadline_type := none,
    compleet := false, email_content := none, email_subject := none,
    email_from := none, email_received_at := none }

/-- Seven notes for the end-to-end bulk-arrange scenario. -/
def demoNotes7 : List Note :=
  (List.range 7).map fun k => { sampleNote with id := toString k }

/-- A note occupying the grid cell (20, 20). -/
def occupantB : Note :=
  { sampleNote with id := "b", position_x := 20, position_y := 20 }

/-- Fifty-one notes filling fifty-one consecutive grid cells of one row,
enough to exhaust the drag resolution's 50-attempt budget. -/
def pileNotes : List Note :=
  (List.range 51).map fun k =>
    { sampleNote with
      id := toString k
      position_x := 20 + 395 * (k : Int)
      position_y := 20 }

/-- Instant 2024-03-15T23:00:00Z (local 2024-03-16 01:00 at UTC+2). -/
def tLateMar15 : Int := minutesOfUtc 2024 3 15 23 0

/-- Instant 2024-03-16T01:00:00Z (local 2024-03-16 03:00 at UTC+2). -/
def tEarlyMar16 : Int := minutesOfUtc 2024 3 16 1 0

/-- A "must" note whose deadline is stored as 2024-03-15T23:00:00Z. -/
def mustNote : Note :=
  { sampleNote with
    id := "n1"
    deadline := some tLateMar15
    deadline_type := some .must }

/-- A "ca" note whose deadline is stored as 2024-03-16T01:00:00Z. -/
def caNote : Note :=
  { sampleNote with
    id := "n2"
    deadline := some tEarlyMar16
    deadline_type := some .ca }

/-- Two notes with deadlines one hour apart on the same stored UTC day. -/
def sameUtcNote1 : Note :=
  { sampleNote with id := "w1", deadline := some tEarlyMar16 }

/-- Second note of the same-UTC-day pair. -/
def sameUtcNote2 : Note :=
  { sampleNote with id := "w2", deadline := some (tEarlyMar16 + 60) }

/-- A "now" instant whose local (UTC+2) calendar day is 2024-03-16. -/
def nowMar16 : Int := minutesOfUtc 2024 3 15 23 30

/-- A note with a nonzero stacking index. -/
def zNote5 : Note := { sampleNote with id := "b", z_index := 5 }

/-- A two-note board used by the stacking claims. -/
def zNotes : List Note := [sampleNote, zNote5]

/-- A note hidden by the `nieuw` status filter, parked on cell (20, 20). -/
def hiddenNote : Note :=
  { sampleNote with
    id := "h"
    status := .archief
    position_x := 20
    position_y := 20 }

/-- Filter state selecting only `nieuw` notes. -/
def nieuwFilter : FilterState := ⟨some .nieuw, none, none, none⟩

/-- Variant of `occupantB` that differs in every non-positional field the
filters can see. -/
def occupantBVariant : Note :=
  { occupantB with
    customer_name := "Zeta"
    status := .afgerond
    z_index := 9
    replied := true }

/-- Projection of an optional note onto its spatial fields
`(position_x, position_y, z_index)`, used to state frame conditions. -/
def posKey : Option Note → Option (Int × Int × Int)
  | none => none
  | some n => some (n.position_x, n.position_y, n.z_index)

/-- Projection of an optional note onto `(position_x, position_y)`. -/
def xyKey : Option Note → Option (Int × Int)
  | none => none
  | some n => some (n.position_x, n.position_y)

/-! ### Helper lemmas -/

theorem GRID_SIZE_X_eq : GRID_SIZE_X = 395 := rfl

theorem GRID_SIZE_Y_eq : GRID_SIZE_Y = 295 := rfl

theorem dragLoop_step_occupied (others : List Note) (iw : Int) (fuel : Nat)
    (x y : Int) (att : Nat) (h : probeOccupied others x y = true) :
    dragLoop others iw (fuel + 1) x y att =
      dragLoop others iw fuel (advanceCell iw x y).1 (advanceCell iw x y).2 (att + 1) := by
  simp [dragLoop, h]

theorem dragLoop_step_free (others : List Note) (iw : Int) (fuel : Nat)
    (x y : Int) (att : Nat) (h : probeOccupied others x y = false) :
    dragLoop others iw (fuel + 1) x y att = ⟨x, y, false, att + 1⟩ := by
  simp [dragLoop, h]

theorem advanceCell_nonneg (iw x y : Int) (hx : 0 ≤ x) (hy : 0 ≤ y) :
    0 ≤ (advanceCell iw x y).1 ∧ 0 ≤ (advanceCell iw x y).2 := by
  unfold advanceCell
  simp only [GRID_SIZE_X_eq, GRID_SIZE_Y_eq]
  split <;> constructor <;> simp <;> omega

theorem dragLoop_bounds (others : List Note) (iw : Int) :
    ∀ (fuel : Nat) (x y : Int) (att : Nat), 0 ≤ x → 0 ≤ y →
      0 ≤ (dragLoop others iw fuel x y att).x ∧
      0 ≤ (dragLoop others iw fuel x y att).y ∧
      (dragLoop others iw fuel x y att).attempts ≤ att + fuel := by
  intro fuel
  induction fuel with
  | zero =>
    intro x y att hx hy
    exact ⟨hx, hy, by simp [dragLoop]⟩
  | succ n ih =>
    intro x y att hx hy
    by_cases hp : probeOccupied others x y = true
    · rw [dragLoop_step_occupied others iw n x y att hp]
      obtain ⟨hcx, hcy⟩ := advanceCell_nonneg iw x y hx hy
      obtain ⟨h1, h2, h3⟩ := ih (advanceCell iw x y).1 (advanceCell iw x y).2 (att + 1) hcx hcy
      exact ⟨h1, h2, by omega⟩
    · rw [dragLoop_step_free others iw n x y att (by simpa using hp)]
      exact ⟨hx, hy, by simp⟩

theorem dragLoop_exit_free (others : List Note) (iw : Int) :
    ∀ (fuel : Nat) (x y : Int) (att : Nat),
      (dragLoop others iw fuel x y att).occupied = false →
      probeOccupied others (dragLoop others iw fuel x y att).x
        (dragLoop others iw fuel x y att).y = false := by
  intro fuel
  induction fuel with
  | zero => intro x y att h; simp [dragLoop] at h
  | succ n ih =>
    intro x y att h
    by_cases hp : probeOccupied others x y = true
    · rw [dragLoop_step_occupied others iw n x y att hp] at h ⊢
      exact ih _ _ _ h
    · have hp2 : probeOccupied others x y = false := by simpa using hp
      rw [dragLoop_step_free others iw n x y att hp2]
      exact hp2

/-! ### Claim theorems -/

/-- C1: for every ordered note sequence and viewport width, Bulk Arrange
assigns the note at sequence index `i` the coordinates
`x = (i mod columnsPerRow) * (W + G) + 20` and
`y = (i div columnsPerRow) * (H + G) + 20`, where
`columnsPerRow = max (1, floor (usableWidth / (W + G)))`. -/
theorem bulkArrange_grid_formula (innerWidth : Int) (notes : List Note) (i : Nat)
    (h : i < notes.length) :
    (handleOverview innerWidth notes).get? i =
      some ((notes.get ⟨i, h⟩).id,
        ((i % notesPerRow innerWidth : Nat) : Int) * (NOTE_WIDTH + GRID_GAP) + 20,
        ((i / notesPerRow innerWidth : Nat) : Int) * (NOTE_HEIGHT + GRID_GAP) + 20) := by
  unfold handleOverview
  rw [List.get?_map, List.get?_enum, List.get?_eq_get h]
  rfl

/-- C1 witness: the end-to-end scenario with 7 notes and usable width
800 (`innerWidth = 840`) puts `columnsPerRow = 2`; index 6 lands at
`(20, 905)`, on row 3 column 0. -/
theorem bulkArrange_grid_formula_witness :
    (6 : Nat) < demoNotes7.length ∧
    (handleOverview 840 demoNotes7).get? 6 = some ("6", 20, 905) :=
  ⟨by decide, (bulkArrange_grid_formula 840 demoNotes7 6 (by decide)).trans (by decide)⟩

/-- C6: for every starting position, pointer delta and set of other
notes, drag resolution returns after at most the fixed bound of 50
probe-advance attempts, and both returned coordinates are
nonnegative. -/
theorem resolveDrag_bounded_nonneg (innerWidth : Int) (note : Note) (dx dy : Int)
    (others : List Note) :
    (resolveDrag innerWidth note dx dy others).attempts ≤ maxAttempts ∧
    0 ≤ (resolveDrag innerWidth note dx dy others).x ∧
    0 ≤ (resolveDrag innerWidth note dx dy others).y := by
  unfold resolveDrag
  have h := dragLoop_bounds others innerWidth maxAttempts (snappedX note dx)
    (snappedY note dy) 0 (le_max_left 0 _) (le_max_left 0 _)
  exact ⟨by simpa using h.2.2, h.1, h.2.1⟩

/-- C3 counterexample: against 51 notes packed in consecutive grid cells
the probe budget is exhausted, and the accepted position overlaps the
51st note under the `(W+G-10, H+G-10)` separation bound — the claimed
unconditional no-overlap invariant fails. -/
theorem dragResolve_overlap_after_budget :
    ∃ o ∈ pileNotes,
      |o.position_x - (resolveDrag 100000 sampleNote 0 0 pileNotes).x| < GRID_SIZE_X - 10 ∧
      |o.position_y - (resolveDrag 100000 sampleNote 0 0 pileNotes).y| < GRID_SIZE_Y - 10 := by
  decide

/-- C3 (amended): whenever drag resolution ends with its collision probe
reporting the candidate free (`occupied = false`, which holds in every
run that does not exhaust all 50 attempts on collisions), no other note
is within the minimum separation `(W+G-10, H+G-10)` of the resolved
position. -/
theorem dragResolve_no_overlap (innerWidth : Int) (note : Note) (dx dy : Int)
    (others : List Note)
    (h : (resolveDrag innerWidth note dx dy others).occupied = false) :
    ∀ o ∈ others,
      ¬(|o.position_x - (resolveDrag innerWidth note dx dy others).x| < GRID_SIZE_X - 10 ∧
        |o.position_y - (resolveDrag innerWidth note dx dy others).y| < GRID_SIZE_Y - 10) := by
  intro o ho
  unfold resolveDrag at h ⊢
  have hfree := dragLoop_exit_free others innerWidth maxAttempts
    (snappedX note dx) (snappedY note dy) 0 h
  unfold probeOccupied at hfree
  rw [List.any_eq_false] at hfree
  have ho2 := hfree o ho
  simp only [Bool.and_eq_true, decide_eq_true_eq, not_and] at ho2
  intro hcontra
  exact absurd hcontra (by simpa using ho2)

/-- C3 witness: a drag into free space next to a single occupant resolves
with a free probe, and the occupant is outside the separation bound of
the resolved position. -/
theorem dragResolve_no_overlap_witness :
    (resolveDrag 840 sampleNote 0 0 [occupantB]).occupied = false ∧
    ∀ o ∈ [occupantB],
      ¬(|o.position_x - (resolveDrag 840 sampleNote 0 0 [occupantB]).x| < GRID_SIZE_X - 10 ∧
        |o.position_y - (resolveDrag 840 sampleNote 0 0 [occupantB]).y| < GRID_SIZE_Y - 10) :=
  ⟨by decide, dragResolve_no_overlap 840 sampleNote 0 0 [occupantB] (by decide)⟩

/-- C5: when the snapped candidate cell coincides exactly with another
note's position, the resolution does not return that cell: if the next
probed cell is unoccupied, the note lands one grid cell to the right,
or — exactly when the advanced right edge would pass the usable board
width — at the leftmost column of the next grid row. -/
theorem dragResolve_occupied_cell_advances (innerWidth : Int) (note b : Note)
    (dx dy : Int) (others : List Note) (hmem : b ∈ others)
    (hbx : b.position_x = snappedX note dx)
    (hby : b.position_y = snappedY note dy)
    (hfree : probeOccupied others
      (advanceCell innerWidth (snappedX note dx) (snappedY note dy)).1
      (advanceCell innerWidth (snappedX note dx) (snappedY note dy)).2 = false) :
    ((resolveDrag innerWidth note dx dy others).x,
     (resolveDrag innerWidth note dx dy others).y) ≠
        (snappedX note dx, snappedY note dy) ∧
    (snappedX note dx + GRID_SIZE_X > (innerWidth - 40) - NOTE_WIDTH →
      ((resolveDrag innerWidth note dx dy others).x,
       (resolveDrag innerWidth note dx dy others).y) =
        (20, snappedY note dy + GRID_SIZE_Y)) ∧
    (¬(snappedX note dx + GRID_SIZE_X > (innerWidth - 40) - NOTE_WIDTH) →
      ((resolveDrag innerWidth note dx dy others).x,
       (resolveDrag innerWidth note dx dy others).y) =
        (snappedX note dx + GRID_SIZE_X, snappedY note dy)) := by
  have hprobe : probeOccupied others (snappedX note dx) (snappedY note dy) = true := by
    unfold probeOccupied
    rw [List.any_eq_true]
    refine ⟨b, hmem, ?_⟩
    rw [hbx, hby]
    simp [GRID_SIZE_X_eq, GRID_SIZE_Y_eq]
  have hres : resolveDrag innerWidth note dx dy others =
      ⟨(advanceCell innerWidth (snappedX note dx) (snappedY note dy)).1,
       (advanceCell innerWidth (snappedX note dx) (snappedY note dy)).2, false, 2⟩ := by
    unfold resolveDrag maxAttempts
    rw [show (50 : Nat) = 49 + 1 from rfl,
      dragLoop_step_occupied others innerWidth 49 _ _ 0 hprobe,
      show (49 : Nat) = 48 + 1 from rfl,
      dragLoop_step_free others innerWidth 48 _ _ 1 hfree]
  rw [hres]
  refine ⟨?_, ?_, ?_⟩
  · intro hcontra
    have h1 := congrArg Prod.fst hcontra
    have h2 := congrArg Prod.snd hcontra
    simp only at h1 h2
    unfold advanceCell at h1 h2
    by_cases hw : snappedX note dx + GRID_SIZE_X > (innerWidth - 40) - NOTE_WIDTH
    · rw [if_pos hw] at h2
      simp only [GRID_SIZE_Y_eq] at h2
      omega
    · rw [if_neg hw] at h1
      simp only [GRID_SIZE_X_eq] at h1
      omega
  · intro hw
    unfold advanceCell
    rw [if_pos hw]
  · intro hw
    unfold advanceCell
    rw [if_neg hw]

/-- C5 witness: dragging the origin note onto the cell occupied by
`occupantB` (snapped candidate (20, 20), `innerWidth = 840`) relocates
it one grid cell to the right, to (415, 20). -/
theorem dragResolve_occupied_cell_advances_witness :
    occupantB ∈ [occupantB] ∧
    occupantB.position_x = snappedX sampleNote 0 ∧
    occupantB.position_y = snappedY sampleNote 0 ∧
    ((resolveDrag 840 sampleNote 0 0 [occupantB]).x,
     (resolveDrag 840 sampleNote 0 0 [occupantB]).y) =
      (snappedX sampleNote 0 + GRID_SIZE_X, snappedY sampleNote 0) :=
  ⟨by decide, by decide, by decide,
   (dragResolve_occupied_cell_advances 840 sampleNote occupantB 0 0 [occupantB]
     (by decide) (by decide) (by decide) (by decide)).2.2 (by decide)⟩

/-- C2 counterexample: deadlines 2024-03-15T23:00:00Z and
2024-03-16T01:00:00Z fall on the same local (UTC+2) calendar day
2024-03-16, yet the month grid annotates day 15 with the first note's
"must" flag and day 16 with the second note's "ca" flag — the two notes
are bucketed onto different day cells. -/
theorem monthGrid_same_local_day_differs :
    localDateKey 120 tLateMar15 = localDateKey 120 tEarlyMar16 ∧
    mustNote.deadline = some tLateMar15 ∧
    caNote.deadline = some tEarlyMar16 ∧
    (getDateInfo [mustNote, caNote] 2024 2 15).hasMust = true ∧
    (getDateInfo [mustNote, caNote] 2024 2 15).hasCa = false ∧
    (getDateInfo [mustNote, caNote] 2024 2 16).hasMust = false ∧
    (getDateInfo [mustNote, caNote] 2024 2 16).hasCa = true := by
  decide

/-- C2 (amended): the month grid buckets a note by the calendar date of
its stored deadline string (the segment before `T`, i.e. the stored UTC
date), so two notes whose deadline instants share that stored date are
annotated onto exactly the same day cells. -/
theorem monthGrid_buckets_by_stored_date (notes : List Note) (a c : Note)
    (ta tc : Int) (ha : a ∈ notes) (hc : c ∈ notes)
    (hda : a.deadline = some ta) (hdc : c.deadline = some tc)
    (hkey : utcDateKey ta = utcDateKey tc) (year month0 day : Int) :
    (a ∈ notesOnDate notes (getDateKey year month0 day) ↔
     c ∈ notesOnDate notes (getDateKey year month0 day)) := by
  unfold notesOnDate
  rw [List.mem_filter, List.mem_filter]
  simp [ha, hc, hda, hdc, hkey]

/-- C2 witness: two notes with deadline instants one hour apart on the
same stored day 2024-03-16 are bucketed identically on every cell. -/
theorem monthGrid_buckets_by_stored_date_witness :
    utcDateKey tEarlyMar16 = utcDateKey (tEarlyMar16 + 60) ∧
    (sameUtcNote1 ∈ notesOnDate [sameUtcNote1, sameUtcNote2] (getDateKey 2024 2 16) ↔
     sameUtcNote2 ∈ notesOnDate [sameUtcNote1, sameUtcNote2] (getDateKey 2024 2 16)) :=
  ⟨by decide,
   monthGrid_buckets_by_stored_date [sameUtcNote1, sameUtcNote2] sameUtcNote1 sameUtcNote2
     tEarlyMar16 (tEarlyMar16 + 60) (by decide) (by decide) (by decide) (by decide)
     (by decide) 2024 2 16⟩

/-- The target key the implementation compares against agrees with the
spec's reading (local midnight plus `d` days of calendar arithmetic). -/
theorem countHorizon_target_key (tz now d : Int) :
    localDateKey tz (localMidnightInstant tz now + d * 1440) = getDateString tz now d := by
  unfold localDateKey getDateString codeTodayLocalDay
  congr 1
  unfold localMidnightInstant
  have h : Int.fdiv (now + tz) 1440 * 1440 - tz + d * 1440 + tz =
      (Int.fdiv (now + tz) 1440 + d) * 1440 := by ring
  rw [h, Int.mul_fdiv_cancel _ (by norm_num)]

/-- C4: `countByDays` counts exactly the notes whose deadline's local
calendar-date key equals the key of today (local date, time zeroed) plus
`d` days of local calendar arithmetic — the spec-side `CountByHorizon` —
and in the UTC+2 scenario the deadlines 2024-03-15T23:00:00Z and
2024-03-16T01:00:00Z are both counted toward local date 2024-03-16. -/
theorem countByDays_matches_horizon_spec :
    (∀ (tz now : Int) (notes : List Note) (d : Int),
      countByDays tz now notes d = countByHorizonSpec tz now notes d) ∧
    countByDays 120 nowMar16 [mustNote, caNote] 0 = 2 ∧
    getDateString 120 nowMar16 0 = "2024-03-16" := by
  refine ⟨?_, by decide, by decide⟩
  intro tz now notes d
  unfold countByDays countByHorizonSpec
  congr 1
  apply List.filter_congr
  intro n _
  cases hn : n.deadline with
  | none => simp
  | some t => simp [countHorizon_target_key]

/-- A patch that leaves the three spatial fields untouched leaves every
note's `posKey` projection unchanged. -/
theorem mapNote_preserves_posKey (f : Note → Note)
    (hf : ∀ n, (f n).position_x = n.position_x ∧ (f n).position_y = n.position_y ∧
      (f n).z_index = n.z_index) (notes : List Note) (id : String) (k : Nat) :
    posKey ((mapNote notes id f).get? k) = posKey (notes.get? k) := by
  unfold mapNote
  rw [List.get?_map]
  cases h : notes.get? k with
  | none => rfl
  | some n =>
    simp only [Option.map_some']
    by_cases hid : (n.id == id) = true
    · rw [if_pos hid]
      simp only [posKey, (hf n).1, (hf n).2.1, (hf n).2.2]
    · rw [if_neg hid]

/-- A patch that leaves `position_x`/`position_y` untouched leaves every
note's `xyKey` projection unchanged. -/
theorem mapNote_preserves_xyKey (f : Note → Note)
    (hf : ∀ n, (f n).position_x = n.position_x ∧ (f n).position_y = n.position_y)
    (notes : List Note) (id : String) (k : Nat) :
    xyKey ((mapNote notes id f).get? k) = xyKey (notes.get? k) := by
  unfold mapNote
  rw [List.get?_map]
  cases h : notes.get? k with
  | none => rfl
  | some n =>
    simp only [Option.map_some']
    by_cases hid : (n.id == id) = true
    · rw [if_pos hid]
      simp only [xyKey, (hf n).1, (hf n).2]
    · rw [if_neg hid]

/-- C7 (amended): the status update and cycle, type cycle, replied
toggle, compleet toggle, free-text field edits, and deadline and
deadline-type updates leave `position_x`, `position_y` and `z_index` of
every note unchanged; bring-to-front leaves `position_x` and
`position_y` of every note unchanged (it reassigns only `z_index`). -/
theorem noteOps_preserve_position (notes : List Note) (id : String) (s cs : NoteStatus)
    (ty : NoteType) (b : Bool) (dl : Option Int) (dt : Option DeadlineType)
    (r : Option String) (fld : TextField) (v : String) (k : Nat) :
    posKey ((updateStatus notes id s).get? k) = posKey (notes.get? k) ∧
    posKey ((cycleStatus notes id cs).get? k) = posKey (notes.get? k) ∧
    posKey ((cycleType notes id ty).get? k) = posKey (notes.get? k) ∧
    posKey ((toggleReplied notes id b).get? k) = posKey (notes.get? k) ∧
    posKey ((toggleCompleet notes id).get? k) = posKey (notes.get? k) ∧
    posKey ((updateField notes id fld v).get? k) = posKey (notes.get? k) ∧
    posKey ((updateRemarks notes id r).get? k) = posKey (notes.get? k) ∧
    posKey ((updateDeadline notes id dl).get? k) = posKey (notes.get? k) ∧
    posKey ((updateDeadlineType notes id dt).get? k) = posKey (notes.get? k) ∧
    xyKey ((bringToFront notes id).get? k) = xyKey (notes.get? k) := by
  refine ⟨?_, ?_, ?_, ?_, ?_, ?_, ?_, ?_, ?_, ?_⟩
  · exact mapNote_preserves_posKey (fun n => { n with status := s })
      (fun n => ⟨rfl, rfl, rfl⟩) notes id k
  · exact mapNote_preserves_posKey
      (fun n => { n with
        status := statusOrder.getD ((statusOrder.indexOf cs + 1) % statusOrder.length) .nieuw })
      (fun n => ⟨rfl, rfl, rfl⟩) notes id k
  · exact mapNote_preserves_posKey
      (fun n => { n with
        note_type := typeOrder.getD ((typeOrder.indexOf ty + 1) % typeOrder.length) .offerte })
      (fun n => ⟨rfl, rfl, rfl⟩) notes id k
  · exact mapNote_preserves_posKey (fun n => { n with replied := b })
      (fun n => ⟨rfl, rfl, rfl⟩) notes id k
  · exact mapNote_preserves_posKey (fun n => { n with compleet := !n.compleet })
      (fun n => ⟨rfl, rfl, rfl⟩) notes id k
  · exact mapNote_preserves_posKey (setTextField fld v)
      (fun n => by cases fld <;> exact ⟨rfl, rfl, rfl⟩) notes id k
  · exact mapNote_preserves_posKey (fun n => { n with remarks := r })
      (fun n => ⟨rfl, rfl, rfl⟩) notes id k
  · exact mapNote_preserves_posKey (fun n => { n with deadline := dl })
      (fun n => ⟨rfl, rfl, rfl⟩) notes id k
  · exact mapNote_preserves_posKey (fun n => { n with deadline_type := dt })
      (fun n => ⟨rfl, rfl, rfl⟩) notes id k
  · unfold bringToFront
    cases hm : maxZ notes with
    | none => rfl
    | some m =>
      exact mapNote_preserves_xyKey (fun n => { n with z_index := m + 1 })
        (fun n => ⟨rfl, rfl⟩) notes id k

/-- C7 counterexample: bring-to-front does change `z_index` — on a board
whose maximum stacking index is 5, bringing the first note to front
rewrites its `z_index` from 0 to 6, so the claim that bring-to-front
leaves `z_index` unchanged fails. -/
theorem bringToFront_changes_z :
    (bringToFront zNotes "a").map (fun n => n.z_index) ≠
      zNotes.map (fun n => n.z_index) := by
  decide

/-- Seeding `foldl max` over the stacking indices bounds the seed and
every element. -/
theorem foldl_max_z (l : List Note) : ∀ a : Int,
    a ≤ l.foldl (fun acc x => max acc x.z_index) a ∧
    ∀ m ∈ l, m.z_index ≤ l.foldl (fun acc x => max acc x.z_index) a := by
  induction l with
  | nil => intro a; exact ⟨le_refl a, by simp⟩
  | cons hd tl ih =>
    intro a
    refine ⟨le_trans (le_max_left a hd.z_index) (ih _).1, ?_⟩
    intro m hm
    rcases List.mem_cons.mp hm with h | h
    · subst h
      exact le_trans (le_max_right a m.z_index) (ih _).1
    · exact (ih (max a hd.z_index)).2 m h

/-- `maxZ` bounds every note's stacking index. -/
theorem maxZ_ge (notes : List Note) (M : Int) (h : maxZ notes = some M) :
    ∀ m ∈ notes, m.z_index ≤ M := by
  cases notes with
  | nil => simp [maxZ] at h
  | cons hd tl =>
    simp only [maxZ, Option.some.injEq] at h
    subst h
    intro m hm
    rcases List.mem_cons.mp hm with h | h
    · subst h
      exact (foldl_max_z tl m.z_index).1
    · exact (foldl_max_z tl hd.z_index).2 m h

/-- C8: bringing a note of a non-empty board to the front assigns it a
`z_index` strictly greater than every `z_index` previously on the board,
the note's own included. -/
theorem bringToFront_above_max (notes : List Note) (n : Note) (h : n ∈ notes) :
    ∀ n2 ∈ bringToFront notes n.id, n2.id = n.id →
      ∀ m ∈ notes, m.z_index < n2.z_index := by
  intro n2 h2 hid m hm
  cases hmz : maxZ notes with
  | none =>
    cases notes with
    | nil => simp at h
    | cons hd tl => simp [maxZ] at hmz
  | some M =>
    have hle := maxZ_ge notes M hmz m hm
    unfold bringToFront at h2
    rw [hmz] at h2
    unfold mapNote at h2
    rw [List.mem_map] at h2
    obtain ⟨orig, horig, heq⟩ := h2
    by_cases hi : (orig.id == n.id) = true
    · rw [if_pos hi] at heq
      rw [← heq]
      simp only
      omega
    · rw [if_neg hi] at heq
      subst heq
      rw [hid] at hi
      simp at hi

/-- C8 witness: on the two-note board with stacking indices 0 and 5,
bringing the first note to front yields an index above both. -/
theorem bringToFront_above_max_witness :
    sampleNote ∈ zNotes ∧
    (∀ n2 ∈ bringToFront zNotes sampleNote.id, n2.id = sampleNote.id →
      ∀ m ∈ zNotes, m.z_index < n2.z_index) :=
  ⟨by decide, bringToFront_above_max zNotes sampleNote (by decide)⟩

/-- Shifting a day by a whole number of weeks preserves its weekday. -/
theorem dayOfWeek_shift (z q : Int) : dayOfWeek (z + 7 * q) = dayOfWeek z := by
  unfold dayOfWeek
  have h : z + 7 * q + 4 = z + 4 + 7 * q := by ring
  rw [h, Int.add_mul_emod_self_left]

/-- Shifting a day by a whole number of weeks preserves weekend-ness. -/
theorem isWeekend_shift (z q : Int) : isWeekend (z + 7 * q) = isWeekend z := by
  unfold isWeekend
  rw [dayOfWeek_shift]

/-- The workday walk commutes with shifting the start by whole weeks. -/
theorem collectWorkdays_shift (q : Int) : ∀ (fuel : Nat) (c : Int) (acc : List Int),
    collectWorkdays fuel (c + 7 * q) (acc.map (· + 7 * q)) =
      (collectWorkdays fuel c acc).map (· + 7 * q) := by
  intro fuel
  induction fuel with
  | zero => intro c acc; simp [collectWorkdays]
  | succ n ih =>
    intro c acc
    simp only [collectWorkdays, List.length_map]
    by_cases h5 : acc.length < 5
    · rw [if_pos h5, if_pos h5, isWeekend_shift]
      by_cases hw : isWeekend c = true
      · rw [if_pos hw, if_pos hw]
        have harg : c + 7 * q + 1 = c + 1 + 7 * q := by ring
        rw [harg]
        exact ih (c + 1) acc
      · rw [if_neg hw, if_neg hw]
        have harg : c + 7 * q + 1 = c + 1 + 7 * q := by ring
        rw [harg]
        have hcons : (c + 7 * q) :: acc.map (· + 7 * q) = ((c :: acc).map (· + 7 * q)) := rfl
        rw [hcons]
        exact ih (c + 1) (c :: acc)
    · rw [if_neg h5, if_neg h5, List.map_reverse]

/-- Once five workdays are collected the walk stops at once. -/
theorem collectWorkdays_stable (fuel : Nat) (c : Int) (acc : List Int)
    (h : 5 ≤ acc.length) : collectWorkdays fuel c acc = acc.reverse := by
  cases fuel with
  | zero => rfl
  | succ n =>
    simp only [collectWorkdays]
    rw [if_neg (by omega)]

/-- Fuel beyond the point where five workdays were collected does not
change the walk's result. -/
theorem collectWorkdays_fuel_irrel : ∀ (fuel1 fuel2 : Nat) (c : Int) (acc : List Int),
    fuel1 ≤ fuel2 → (collectWorkdays fuel1 c acc).length = 5 →
    collectWorkdays fuel2 c acc = collectWorkdays fuel1 c acc := by
  intro fuel1
  induction fuel1 with
  | zero =>
    intro fuel2 c acc _ hlen
    have hacc : acc.length = 5 := by simpa [collectWorkdays] using hlen
    rw [collectWorkdays_stable fuel2 c acc (by omega)]
    rfl
  | succ n ih =>
    intro fuel2 c acc hle hlen
    cases fuel2 with
    | zero => omega
    | succ m =>
      by_cases h5 : acc.length < 5
      · simp only [collectWorkdays] at hlen ⊢
        simp only [if_pos h5] at hlen ⊢
        by_cases hw : isWeekend c = true
        · simp only [if_pos hw] at hlen ⊢
          exact ih m (c + 1) acc (by omega) hlen
        · simp only [if_neg hw] at hlen ⊢
          exact ih m (c + 1) (c :: acc) (by omega) hlen
      · rw [collectWorkdays_stable (n + 1) c acc (by omega),
          collectWorkdays_stable (m + 1) c acc (by omega)]

/-- C9: for every starting day, `getWorkdays` returns exactly 5 days,
none a Saturday or Sunday, including the start when it is a workday; the
walk is settled within the 7-iteration budget (extra fuel changes
nothing), and started on a Friday it skips the following Saturday and
Sunday. -/
theorem nextWorkdays_five_no_weekend (start : Int) :
    (getWorkdays start).length = 5 ∧
    (∀ d ∈ getWorkdays start, isWeekend d = false) ∧
    (isWeekend start = false → start ∈ getWorkdays start) ∧
    (∀ fuel : Nat, 7 ≤ fuel → collectWorkdays fuel start [] = getWorkdays start) ∧
    (dayOfWeek start = 5 → start + 1 ∉ getWorkdays start ∧ start + 2 ∉ getWorkdays start) := by
  obtain ⟨q, r, hqr, hr0, hr7⟩ : ∃ q r : Int, start = r + 7 * q ∧ 0 ≤ r ∧ r < 7 :=
    ⟨start / 7, start % 7, (Int.emod_add_ediv start 7).symm,
      Int.emod_nonneg start (by norm_num), Int.emod_lt_of_pos start (by norm_num)⟩
  subst hqr
  have hshift : getWorkdays (r + 7 * q) = (getWorkdays r).map (· + 7 * q) := by
    unfold getWorkdays
    have h := collectWorkdays_shift q 7 r []
    simpa using h
  have hbase : (getWorkdays r).length = 5 ∧ (∀ d ∈ getWorkdays r, isWeekend d = false) ∧
      (isWeekend r = false → r ∈ getWorkdays r) ∧
      (collectWorkdays 7 r []).length = 5 ∧
      (dayOfWeek r = 5 → r + 1 ∉ getWorkdays r ∧ r + 2 ∉ getWorkdays r) := by
    interval_cases r <;> exact ⟨by decide, by decide, by decide, by decide, by decide⟩
  refine ⟨?_, ?_, ?_, ?_, ?_⟩
  · rw [hshift, List.length_map]
    exact hbase.1
  · rw [hshift]
    intro d hd
    rw [List.mem_map] at hd
    obtain ⟨d0, hd0, hde⟩ := hd
    rw [← hde, isWeekend_shift]
    exact hbase.2.1 d0 hd0
  · intro hs
    have hs0 : isWeekend r = false := by
      rw [← isWeekend_shift r q]
      exact hs
    rw [hshift, List.mem_map]
    exact ⟨r, hbase.2.2.1 hs0, rfl⟩
  · intro fuel hf
    have h1 : collectWorkdays fuel (r + 7 * q) [] =
        (collectWorkdays fuel r []).map (· + 7 * q) := by
      have h := collectWorkdays_shift q fuel r []
      simpa using h
    have h2 : collectWorkdays fuel r [] = collectWorkdays 7 r [] :=
      collectWorkdays_fuel_irrel 7 fuel r [] hf hbase.2.2.2.1
    rw [h1, h2]
    exact hshift.symm
  · intro hfri
    have hfri0 : dayOfWeek r = 5 := by
      rw [← dayOfWeek_shift r q]
      exact hfri
    obtain ⟨hna, hnb⟩ := hbase.2.2.2.2 hfri0
    constructor
    · rw [hshift, List.mem_map]
      rintro ⟨d0, hd0, heq⟩
      have hd0e : d0 = r + 1 := by omega
      subst hd0e
      exact hna hd0
    · rw [hshift, List.mem_map]
      rintro ⟨d0, hd0, heq⟩
      have hd0e : d0 = r + 2 := by omega
      subst hd0e
      exact hnb hd0

/-- C9 witness: day 8 (Friday 1970-01-09) is a workday, belongs to its
own five results, and the following Saturday and Sunday are skipped;
extra fuel (12 iterations) changes nothing. -/
theorem nextWorkdays_five_no_weekend_witness :
    isWeekend 8 = false ∧ (8 : Int) ∈ getWorkdays 8 ∧
    dayOfWeek 8 = 5 ∧ (8 : Int) + 1 ∉ getWorkdays 8 ∧ (8 : Int) + 2 ∉ getWorkdays 8 ∧
    collectWorkdays 12 8 [] = getWorkdays 8 :=
  ⟨by decide, (nextWorkdays_five_no_weekend 8).2.2.1 (by decide), by decide,
   ((nextWorkdays_five_no_weekend 8).2.2.2.2 (by decide)).1,
   ((nextWorkdays_five_no_weekend 8).2.2.2.2 (by decide)).2,
   (nextWorkdays_five_no_weekend 8).2.2.2.1 12 (by norm_num)⟩

/-- C10 counterexample: two boards whose visible notes coincide (the
filter hides a note parked on the snap cell) yield different resolved
coordinates for the same drag — the drag resolution reads filter-hidden
notes too. -/
theorem dragEnd_hidden_note_matters :
    visibleNotes nieuwFilter [sampleNote, hiddenNote] =
      visibleNotes nieuwFilter [sampleNote] ∧
    handleDragEnd 840 [sampleNote, hiddenNote] "a" 0 0 ≠
      handleDragEnd 840 [sampleNote] "a" 0 0 := by
  decide

/-- The collision probe reads other notes only through their positions. -/
theorem probeOccupied_eq_of_positions (o1 o2 : List Note)
    (h : o1.map (fun n => (n.position_x, n.position_y)) =
         o2.map (fun n => (n.position_x, n.position_y))) (x y : Int) :
    probeOccupied o1 x y = probeOccupied o2 x y := by
  unfold probeOccupied
  have key : ∀ l : List Note,
      (l.any fun other => decide (|other.position_x - x| < GRID_SIZE_X - 10) &&
        decide (|other.position_y - y| < GRID_SIZE_Y - 10)) =
      ((l.map fun n => (n.position_x, n.position_y)).any fun p =>
        decide (|p.1 - x| < GRID_SIZE_X - 10) && decide (|p.2 - y| < GRID_SIZE_Y - 10)) := by
    intro l
    induction l with
    | nil => rfl
    | cons hd tl ih =>
      simp only [List.any_cons, List.map_cons]
      rw [ih]
  rw [key, key, h]

/-- The probe-advance loop reads other notes only through their
positions. -/
theorem dragLoop_eq_of_positions (o1 o2 : List Note) (iw : Int)
    (h : o1.map (fun n => (n.position_x, n.position_y)) =
         o2.map (fun n => (n.position_x, n.position_y))) :
    ∀ (fuel : Nat) (x y : Int) (att : Nat),
      dragLoop o1 iw fuel x y att = dragLoop o2 iw fuel x y att := by
  intro fuel
  induction fuel with
  | zero => intro x y att; rfl
  | succ n ih =>
    intro x y att
    by_cases hp : probeOccupied o1 x y = true
    · rw [dragLoop_step_occupied o1 iw n x y att hp,
        dragLoop_step_occupied o2 iw n x y att
          (by rw [← probeOccupied_eq_of_positions o1 o2 h x y]; exact hp)]
      exact ih _ _ _
    · have hp1 : probeOccupied o1 x y = false := by simpa using hp
      rw [dragLoop_step_free o1 iw n x y att hp1,
        dragLoop_step_free o2 iw n x y att
          (by rw [← probeOccupied_eq_of_positions o1 o2 h x y]; exact hp1)]

/-- C10 (amended): the resolved coordinates are a function of the
dragged note, the pointer delta, the viewport width, and the positions
of ALL other notes — filter-hidden ones included: two boards agreeing on
the dragged note and on the other notes' position lists resolve
identically, whatever their other fields or the active filters. -/
theorem dragEnd_function_of_all_positions (iw : Int) (notes1 notes2 : List Note)
    (aid : String) (dx dy : Int)
    (hfind : notes1.find? (fun n => n.id == aid) = notes2.find? (fun n => n.id == aid))
    (hothers : (notes1.filter fun n => ¬(n.id == aid)).map
        (fun n => (n.position_x, n.position_y)) =
      (notes2.filter fun n => ¬(n.id == aid)).map
        (fun n => (n.position_x, n.position_y))) :
    handleDragEnd iw notes1 aid dx dy = handleDragEnd iw notes2 aid dx dy := by
  unfold handleDragEnd
  rw [← hfind]
  cases hf : notes1.find? (fun n => n.id == aid) with
  | none => rfl
  | some note =>
    have hid : note.id = aid := by
      have := List.find?_some hf
      simpa using this
    have h2 : (notes1.filter fun n => ¬(n.id == note.id)).map
        (fun n => (n.position_x, n.position_y)) =
      (notes2.filter fun n => ¬(n.id == note.id)).map
        (fun n => (n.position_x, n.position_y)) := by
      rw [hid]
      exact hothers
    have hr : resolveDrag iw note dx dy (notes1.filter fun n => ¬(n.id == note.id)) =
        resolveDrag iw note dx dy (notes2.filter fun n => ¬(n.id == note.id)) := by
      unfold resolveDrag
      exact dragLoop_eq_of_positions _ _ iw h2 maxAttempts
        (snappedX note dx) (snappedY note dy) 0
    simp only [hr]

/-- C10 witness: replacing the occupying note by a variant that differs
in name, status and stacking order — everything the filters can see —
while keeping its position leaves the resolved coordinates unchanged. -/
theorem dragEnd_function_of_all_positions_witness :
    handleDragEnd 840 [sampleNote, occupantB] "a" 0 0 =
      handleDragEnd 840 [sampleNote, occupantBVariant] "a" 0 0 :=
  dragEnd_function_of_all_positions 840 [sampleNote, occupantB]
    [sampleNote, occupantBVariant] "a" 0 0 (by decide) (by decide)
